import Mathlib

/-!
Shallow embedding of `Source/Core/VideoCommon/OnScreenDisplay.cpp` (Dolphin,
Slippi playback fork): the OSD message queue (`AddTypedMessage`, `AddMessage`,
`DrawMessages`), the Slippi playback control widgets (`SeekBarBehavior`,
`VolumeBarBehavior`, the mute toggle inside `DrawSlippiPlaybackControls`),
the control-bar idle fade, and the `GetTimeForFrame` timestamp formatter.

Machine integers are modelled as `Nat`/`Int` with explicit reduction mod 2^32
where the code relies on `u32` wrap-around (timestamps), and with `Int.tdiv` /
`Int.tmod` where the code uses C `int` division and remainder.  Floating-point
clamps (`std::min`/`std::max` on `float`) are modelled over `ℚ`; every constant
the claims mention (`0.5`, `1.0`, `0.0001`, divisions by `1024`/`1000`) is a
dyadic or decimal value on which the float computation is exact or which the
specification itself uses symbolically.
-/

namespace OSD

/-- The modulus of `u32` arithmetic, `2^32`. -/
def u32 : Nat := 4294967296

/-- Half of the `u32` modulus, `2^31`: the first value that is negative when a
`u32` is reinterpreted as a signed 32-bit `int`. -/
def i32 : Nat := 2147483648

/-- Reinterpret a `u32` value (reduced mod `2^32`) as a signed 32-bit `int`,
as done by `static_cast<int>` / `s32` conversions in the source. -/
def toInt32 (x : Nat) : Int :=
  if x % u32 < i32 then ((x % u32 : Nat) : Int) else ((x % u32 : Nat) : Int) - (u32 : Int)

/-- Wrapping `u32` subtraction `a - b`, as in `msg.timestamp - now` on `u32`
operands (OnScreenDisplay.cpp line 124). -/
def u32Sub (a b : Nat) : Nat := (a % u32 + (u32 - b % u32)) % u32

/-- Message-type tags.  The enum `OSD::MessageType` is declared in
`OnScreenDisplay.h`, which is not part of the reviewed sources; per the spec it
is a small closed set of tags containing `Typeless`, so tags are modelled as
natural numbers with `Typeless` a distinguished tag.  No claim depends on the
concrete tag values. -/
abbrev MessageType := Nat

/-- The distinguished tag under which `AddMessage` stores untyped messages. -/
def MessageType.Typeless : MessageType := 0

/-- `OSD::Message` (OnScreenDisplay.cpp lines 42-52): display text, absolute
expiry timestamp in `u32` milliseconds, and packed RGBA color. -/
structure Message where
  text : String
  timestamp : Nat
  color : Nat
  deriving DecidableEq

/-- The state of `s_messages` (line 53), a `std::multimap<MessageType, Message>`:
a list of key/value pairs kept in nondecreasing key order, new entries of an
existing key going after the old ones (multimap `emplace` semantics). -/
abbrev MessageQueue := List (MessageType × Message)

/-- `s_messages.erase(type)` (line 100): remove every entry with the given key. -/
def eraseType (t : MessageType) : MessageQueue → MessageQueue
  | [] => []
  | p :: q => if p.1 = t then eraseType t q else p :: eraseType t q

/-- `s_messages.emplace(type, msg)` (lines 101, 107): insert before the first
entry with a strictly greater key, i.e. at the upper bound of the equal-key
range, preserving the relative order of all other entries. -/
def mmEmplace (t : MessageType) (m : Message) : MessageQueue → MessageQueue
  | [] => [(t, m)]
  | p :: q => if t < p.1 then (t, m) :: p :: q else p :: mmEmplace t m q

/-- `OSD::AddTypedMessage` (lines 97-102): erase every message keyed `type`,
then insert one whose expiry is `GetTimeMs() + ms` in `u32` arithmetic. -/
def AddTypedMessage (t : MessageType) (text : String) (ms rgba now : Nat)
    (q : MessageQueue) : MessageQueue :=
  mmEmplace t ⟨text, (now + ms) % u32, rgba⟩ (eraseType t q)

/-- `OSD::AddMessage` (lines 104-109): insert under `Typeless` unconditionally. -/
def AddMessage (text : String) (ms rgba now : Nat) (q : MessageQueue) : MessageQueue :=
  mmEmplace MessageType.Typeless ⟨text, (now + ms) % u32, rgba⟩ q

/-- `time_left` (line 124): `static_cast<int>(msg.timestamp - now)` — wrapping
`u32` subtraction reinterpreted as a signed 32-bit `int`. -/
def timeLeft (timestamp now : Nat) : Int := toInt32 (u32Sub timestamp now)

/-- The loop body of `OSD::DrawMessages` (lines 121-138): erase entries with
`time_left <= 0`; keep the rest, and emit a draw record `(message, time_left)`
for each kept entry when `draw_messages` is set.  Returns the retained queue
and the list of drawn records in iteration order. -/
def drawMessagesGo (drawEnabled : Bool) (now : Nat) :
    MessageQueue → MessageQueue × List (Message × Int)
  | [] => ([], [])
  | p :: rest =>
    let tl := timeLeft p.2.timestamp now
    let r := drawMessagesGo drawEnabled now rest
    if tl ≤ 0 then r
    else (p :: r.1, if drawEnabled then (p.2, tl) :: r.2 else r.2)

/-- `OSD::DrawMessages` (lines 111-139), with the config flag
`bOnScreenDisplayMessages` and the clock reading `now` as inputs. -/
def DrawMessages (drawEnabled : Bool) (now : Nat) (q : MessageQueue) :
    MessageQueue × List (Message × Int) :=
  drawMessagesGo drawEnabled now q

/-- `std::max` on floats (`max(a, b) = a < b ? b : a`), over `ℚ`. -/
def fmax (a b : ℚ) : ℚ := if a < b then b else a

/-- `std::min` on floats (`min(a, b) = b < a ? b : a`), over `ℚ`. -/
def fmin (a b : ℚ) : ℚ := if b < a then b else a

/-- The opacity computed by `OSD::DrawMessage` (line 75):
`std::min(1.0f, std::max(0.0f, time_left / 1024.0f))`. -/
def drawAlpha (timeLeftMs : Int) : ℚ := fmin 1 (fmax 0 ((timeLeftMs : ℚ) / 1024))

/-- One call to `AddTypedMessage`, with the clock reading `now` at call time. -/
structure TypedCall where
  type : MessageType
  text : String
  ms : Nat
  rgba : Nat
  now : Nat
  deriving DecidableEq

/-- Apply a sequence of `AddTypedMessage` calls, oldest first. -/
def runTyped : List TypedCall → MessageQueue → MessageQueue
  | [], q => q
  | c :: cs, q => runTyped cs (AddTypedMessage c.type c.text c.ms c.rgba c.now q)

/-- One call to `AddMessage`, with the clock reading `now` at call time. -/
structure UntypedCall where
  text : String
  ms : Nat
  rgba : Nat
  now : Nat
  deriving DecidableEq

/-- Apply a sequence of `AddMessage` calls, oldest first. -/
def runUntyped : List UntypedCall → MessageQueue → MessageQueue
  | [], q => q
  | c :: cs, q => runUntyped cs (AddMessage c.text c.ms c.rgba c.now q)

/-- The messages stored under key `t`, in queue order. -/
def messagesFor (t : MessageType) : MessageQueue → List Message
  | [] => []
  | p :: q => if p.1 = t then p.2 :: messagesFor t q else messagesFor t q

/-- `INT_MAX`, the sentinel meaning "no seek target" in
`g_playbackStatus->targetFrameNum`. -/
def INT_MAX : Int := 2147483647

/-- The persistent state touched by `SeekBarBehavior`: the `static bool isHeld`
(line 238), the slider value `*v` (the `static s32 frame`, line 148), and
`g_playbackStatus->targetFrameNum`. -/
structure SeekState where
  isHeld : Bool
  v : Int
  target : Int
  deriving DecidableEq

/-- Per-frame inputs to `SeekBarBehavior`: `g.IO.MouseDown[0]` (line 235), the
hover test on the widened `hover_bb` (line 244), the value the current pointer
position maps to via `ImLerp(v_min, v_max, clicked_t)` with `clicked_t` the
clamped relative position (lines 253-279), and
`g_playbackStatus->currentPlaybackFrame`. -/
structure SeekInput where
  down : Bool
  hovered : Bool
  newValue : Int
  currentPlaybackFrame : Int
  deriving DecidableEq

/-- One frame of `SeekBarBehavior` (lines 210-342), state-relevant parts in
source order: the preview write to `*v` (lines 283-286, guarded by
`(hovered || isHeld) && *v != new_value && isDown`), the held/release logic
(lines 289-299, which on release sets `value_changed` and publishes
`targetFrameNum = *v`), and the not-held progress-bar write to `frame`
(lines 336-339).  Returns the new state and the `value_changed` flag; a `true`
flag makes `DrawSlippiPlaybackControls` issue `Host_PlaybackSeek()`
(lines 529-531). -/
def seekStep (s : SeekState) (i : SeekInput) : SeekState × Bool :=
  let v1 : Int :=
    if (i.hovered = true ∨ s.isHeld = true) ∧ s.v ≠ i.newValue ∧ i.down = true
    then i.newValue else s.v
  if s.isHeld = true then
    if i.down = true then
      (⟨true, v1, s.target⟩, false)
    else
      (⟨false, if v1 = INT_MAX then i.currentPlaybackFrame else v1, v1⟩, true)
  else
    if i.hovered = true ∧ i.down = true then
      (⟨true, v1, s.target⟩, false)
    else
      (⟨false, if s.target = INT_MAX then i.currentPlaybackFrame else s.target, s.target⟩, false)

/-- Run `SeekBarBehavior` over a sequence of frames; collect the value carried
by each published seek request (the `targetFrameNum` read by
`Host_PlaybackSeek` on a frame whose `value_changed` is true). -/
def seekRun (s : SeekState) : List SeekInput → SeekState × List Int
  | [] => (s, [])
  | i :: is =>
    let r := seekStep s i
    let rest := seekRun r.1 is
    (rest.1, (if r.2 = true then [r.1.target] else []) ++ rest.2)

/-- The pointer-mapped value of the last frame of a drag: `v` overwritten by
each successive frame's `newValue`. -/
def lastNewValue (v : Int) : List SeekInput → Int
  | [] => v
  | i :: is => lastNewValue i.newValue is

/-- The persistent state touched by `VolumeBarBehavior`: its `static bool
isHeld` (line 374) and the volume value `*v` (`SConfig::GetInstance().m_Volume`). -/
structure VolState where
  isHeld : Bool
  v : Int
  deriving DecidableEq

/-- Per-frame inputs to `VolumeBarBehavior`: the mouse button (line 372), the
hover test on the bar's own rectangle (line 373), and the value the pointer
position maps to (lines 388-416). -/
structure VolInput where
  down : Bool
  hovered : Bool
  newValue : Int
  deriving DecidableEq

/-- One frame of `VolumeBarBehavior` (lines 344-452): the value write and
`value_changed` flag (lines 386-425, guarded by `(isHeld || hovered)` and then
`*v != new_value && isDown`), and the held update
`isHeld = isHeld ? isHeld && isDown : hovered && isDown` (line 427).  Returns
the new state and `some v` when `value_changed` is set with new value `v`; a
`some` result makes `DrawSlippiPlaybackControls` call
`AudioCommon::UpdateSoundStream()` the same frame (lines 624-626). -/
def volStep (s : VolState) (i : VolInput) : VolState × Option Int :=
  let v1 : Int :=
    if (s.isHeld = true ∨ i.hovered = true) ∧ s.v ≠ i.newValue ∧ i.down = true
    then i.newValue else s.v
  let pub : Option Int :=
    if (s.isHeld = true ∨ i.hovered = true) ∧ s.v ≠ i.newValue ∧ i.down = true
    then some i.newValue else none
  let held2 : Bool := if s.isHeld = true then i.down else i.hovered && i.down
  (⟨held2, v1⟩, pub)

/-- One click of the mute toggle button (lines 613-622): at volume `0`, restore
the remembered `prev` value, or the fixed fallback `30` if `prev` is `0`;
otherwise remember the current volume in `prev` and set the volume to `0`.
Returns `(new volume, new prev)`; the `static int prev` is zero-initialized. -/
def muteToggleClick (volume prev : Int) : Int × Int :=
  if volume = 0 then (if prev = 0 then 30 else prev, prev) else (0, volume)

/-- The control-bar opacity set by `DrawSlippiPlaybackControls` (lines 504-533):
`s32 diff = currTime - idle_tick` (the milliseconds since the last pointer
movement, as a signed 32-bit value), then `diff = diff < 1000 ? 0 : diff - 1000`,
then `style.Alpha = (showHelp || GetHoveredID()) ? 1 :
std::max(0.0001f, 1.0f - diff / 1000.0f)`. -/
def controlBarAlpha (showHelp hoveredAny : Bool) (idleMillis : Nat) : ℚ :=
  let diff0 : Int := toInt32 idleMillis
  let diff : Int := if diff0 < 1000 then 0 else diff0 - 1000
  if showHelp = true ∨ hoveredAny = true then 1
  else fmax (1 / 10000) (1 - (diff : ℚ) / 1000)

/-- `sprintf` with format `"%02d"` applied to a C `int`: decimal digits,
zero-padded on the left to width 2 (a sign character counts toward the width,
so negative values receive no padding). -/
def fmt02 (n : Int) : String :=
  if n < 0 then "-" ++ toString (-n)
  else if n < 10 then "0" ++ toString n
  else toString n

/-- `OSD::GetTimeForFrame` (lines 150-158), with the constant
`Slippi::GAME_FIRST_FRAME` (declared outside the reviewed sources) kept as the
parameter `gameFirstFrame`: `currSeconds = (currFrame - firstFrame) / 60` and
the subsequent `/ 60`, `% 60` in C `int` arithmetic (truncation toward zero,
remainder with the dividend's sign), formatted `"%02d:%02d"`. -/
def GetTimeForFrame (gameFirstFrame currFrame : Int) : String :=
  let currSeconds := Int.tdiv (currFrame - gameFirstFrame) 60
  let currMinutes := Int.tdiv currSeconds 60
  let currRemainder := Int.tmod currSeconds 60
  fmt02 currMinutes ++ ":" ++ fmt02 currRemainder

/-- Two-character zero-padded decimal rendering of a number in `[0, 99]`, the
reading of "MM" / "SS" (two zero-padded digits each) used by the claim. -/
def pad2 (n : Int) : String := if n < 10 then "0" ++ toString n else toString n

/-- The timestamp label as the claim describes it: total elapsed seconds are
`(f - firstFrame) / 60`, the label is `MM:SS` where `MM` is those seconds
divided by 60 and `SS` is those seconds modulo 60, in exact integer arithmetic
(Euclidean division and modulus). -/
def specTimeLabel (gameFirstFrame currFrame : Int) : String :=
  let s := Int.ediv (currFrame - gameFirstFrame) 60
  pad2 (Int.ediv s 60) ++ ":" ++ pad2 (Int.emod s 60)

/-! ## Helper lemmas about the message queue -/

theorem messagesFor_eraseType_self (t : MessageType) (q : MessageQueue) :
    messagesFor t (eraseType t q) = [] := by
  induction q with
  | nil => rfl
  | cons p q ih =>
    by_cases h : p.1 = t
    · simpa [eraseType, h] using ih
    · simpa [eraseType, messagesFor, h] using ih

theorem messagesFor_eraseType_ne (t t' : MessageType) (q : MessageQueue) (h : t ≠ t') :
    messagesFor t (eraseType t' q) = messagesFor t q := by
  have h' : ¬t' = t := fun he => h he.symm
  induction q with
  | nil => rfl
  | cons p q ih =>
    by_cases hp : p.1 = t'
    · rw [eraseType, if_pos hp, ih, messagesFor, hp, if_neg h']
    · by_cases hq : p.1 = t
      · rw [eraseType, if_neg hp, messagesFor, if_pos hq, ih, messagesFor, if_pos hq]
      · rw [eraseType, if_neg hp, messagesFor, if_neg hq, ih, messagesFor, if_neg hq]

theorem messagesFor_mmEmplace_ne (t t' : MessageType) (m : Message) (q : MessageQueue)
    (h : t ≠ t') : messagesFor t (mmEmplace t' m q) = messagesFor t q := by
  have h' : ¬t' = t := fun he => h he.symm
  induction q with
  | nil => simp [mmEmplace, messagesFor, h']
  | cons p q ih =>
    by_cases hlt : t' < p.1
    · rw [mmEmplace, if_pos hlt, messagesFor, if_neg h']
    · by_cases hq : p.1 = t
      · rw [mmEmplace, if_neg hlt, messagesFor, if_pos hq, ih, messagesFor, if_pos hq]
      · rw [mmEmplace, if_neg hlt, messagesFor, if_neg hq, ih, messagesFor, if_neg hq]

theorem messagesFor_mmEmplace_self (t : MessageType) (m : Message) (q : MessageQueue)
    (h : messagesFor t q = []) : messagesFor t (mmEmplace t m q) = [m] := by
  induction q with
  | nil => simp [mmEmplace, messagesFor]
  | cons p q ih =>
    have hp : p.1 ≠ t := by
      intro he
      simp [messagesFor, he] at h
    have hq : messagesFor t q = [] := by
      simpa [messagesFor, hp] using h
    by_cases hlt : t < p.1
    · simp [mmEmplace, hlt, messagesFor, hp, hq]
    · simpa [mmEmplace, hlt, messagesFor, hp] using ih hq

theorem messagesFor_addTyped (t t' : MessageType) (text : String) (ms rgba now : Nat)
    (q : MessageQueue) :
    messagesFor t (AddTypedMessage t' text ms rgba now q) =
      if t = t' then [⟨text, (now + ms) % u32, rgba⟩] else messagesFor t q := by
  by_cases h : t = t'
  · subst h
    rw [if_pos rfl]
    exact messagesFor_mmEmplace_self t _ _ (messagesFor_eraseType_self t q)
  · rw [if_neg h, AddTypedMessage, messagesFor_mmEmplace_ne t t' _ _ h,
      messagesFor_eraseType_ne t t' q h]

theorem runTyped_append (as bs : List TypedCall) (q : MessageQueue) :
    runTyped (as ++ bs) q = runTyped bs (runTyped as q) := by
  induction as generalizing q with
  | nil => rfl
  | cons c cs ih => simp [runTyped, ih]

theorem messagesFor_runTyped_of_ne (t : MessageType) (cs : List TypedCall) (q : MessageQueue)
    (h : ∀ c ∈ cs, c.type ≠ t) :
    messagesFor t (runTyped cs q) = messagesFor t q := by
  induction cs generalizing q with
  | nil => rfl
  | cons c cs ih =>
    have hc : c.type ≠ t := h c (List.mem_cons_self c cs)
    have hcs : ∀ c' ∈ cs, c'.type ≠ t := fun c' hm => h c' (List.mem_cons_of_mem c hm)
    rw [runTyped, ih _ hcs, messagesFor_addTyped,
      if_neg (fun he : t = c.type => hc he.symm)]

theorem messagesFor_runTyped_len (t : MessageType) (cs : List TypedCall) (q : MessageQueue)
    (h : (messagesFor t q).length ≤ 1) :
    (messagesFor t (runTyped cs q)).length ≤ 1 := by
  induction cs generalizing q with
  | nil => exact h
  | cons c cs ih =>
    rw [runTyped]
    refine ih _ ?_
    rw [messagesFor_addTyped]
    by_cases he : t = c.type
    · simp [he]
    · simpa [he] using h

theorem messagesFor_append (t : MessageType) (a b : MessageQueue) :
    messagesFor t (a ++ b) = messagesFor t a ++ messagesFor t b := by
  induction a with
  | nil => rfl
  | cons p a ih => by_cases hp : p.1 = t <;> simp [messagesFor, hp, ih]

theorem mmEmplace_of_all_eq (t : MessageType) (m : Message) (q : MessageQueue)
    (h : ∀ p ∈ q, p.1 = t) : mmEmplace t m q = q ++ [(t, m)] := by
  induction q with
  | nil => rfl
  | cons p q ih =>
    have hp : p.1 = t := h p (List.mem_cons_self p q)
    have hlt : ¬t < p.1 := by rw [hp]; exact lt_irrefl t
    rw [mmEmplace, if_neg hlt, ih fun p' hm => h p' (List.mem_cons_of_mem p hm)]
    rfl

theorem runUntyped_all_typeless (cs : List UntypedCall) (q : MessageQueue)
    (h : ∀ p ∈ q, p.1 = MessageType.Typeless) :
    (∀ p ∈ runUntyped cs q, p.1 = MessageType.Typeless) ∧
      (messagesFor MessageType.Typeless (runUntyped cs q)).length =
        (messagesFor MessageType.Typeless q).length + cs.length := by
  induction cs generalizing q with
  | nil => exact ⟨h, rfl⟩
  | cons c cs ih =>
    have hq : AddMessage c.text c.ms c.rgba c.now q =
        q ++ [(MessageType.Typeless, ⟨c.text, (c.now + c.ms) % u32, c.rgba⟩)] :=
      mmEmplace_of_all_eq _ _ _ h
    have hall : ∀ p ∈ AddMessage c.text c.ms c.rgba c.now q, p.1 = MessageType.Typeless := by
      rw [hq]
      intro p hm
      rcases List.mem_append.mp hm with hm | hm
      · exact h p hm
      · simp at hm
        rw [hm]
    have := ih (AddMessage c.text c.ms c.rgba c.now q) hall
    refine ⟨this.1, ?_⟩
    rw [runUntyped, this.2, hq, messagesFor_append]
    simp [messagesFor]
    omega

/-! ## Claim theorems: message queue contents -/

/-- C1: starting from the empty queue, after any sequence of `AddTypedMessage`
calls, at most one notification with any given key `T` exists, and the entry
under the key of the last call using that key is exactly that call's message,
with expiry `now + ms` (in `u32` arithmetic) — each call erases every
notification of its key before inserting its own. -/
theorem osd_addTyped_unique_last (pre post : List TypedCall) (c : TypedCall)
    (T : MessageType) (hpost : ∀ c' ∈ post, c'.type ≠ c.type) :
    (messagesFor T (runTyped (pre ++ c :: post) [])).length ≤ 1 ∧
    messagesFor c.type (runTyped (pre ++ c :: post) []) =
      [⟨c.text, (c.now + c.ms) % u32, c.rgba⟩] := by
  constructor
  · exact messagesFor_runTyped_len T _ [] (by simp [messagesFor])
  · rw [runTyped_append, runTyped, messagesFor_runTyped_of_ne c.type post _ hpost,
      messagesFor_addTyped, if_pos rfl]

/-- Witness for C1 at a concrete call sequence. -/
theorem osd_addTyped_unique_last_witness :
    (∀ c' ∈ [(⟨2, "c", 5, 0, 300⟩ : TypedCall)], c'.type ≠ (⟨1, "b", 20, 0, 200⟩ : TypedCall).type) ∧
    ((messagesFor 1 (runTyped ([⟨1, "a", 10, 0, 100⟩] ++ ⟨1, "b", 20, 0, 200⟩ :: [⟨2, "c", 5, 0, 300⟩]) [])).length ≤ 1 ∧
      messagesFor (1 : MessageType)
          (runTyped ([⟨1, "a", 10, 0, 100⟩] ++ ⟨1, "b", 20, 0, 200⟩ :: [⟨2, "c", 5, 0, 300⟩]) []) =
        [⟨"b", (200 + 20) % u32, 0⟩]) :=
  ⟨by decide, osd_addTyped_unique_last [⟨1, "a", 10, 0, 100⟩] [⟨2, "c", 5, 0, 300⟩]
    ⟨1, "b", 20, 0, 200⟩ 1 (by decide)⟩

/-- C2: untyped notifications inserted by `AddMessage` all live under the
shared `Typeless` key (after `n` such calls the queue holds `n` of them), so a
single `AddTypedMessage(Typeless, …)` erases every one of them and leaves
exactly one notification under that key. -/
theorem osd_typeless_override (adds : List UntypedCall) (text : String) (ms rgba now : Nat) :
    (messagesFor MessageType.Typeless (runUntyped adds [])).length = adds.length ∧
    messagesFor MessageType.Typeless
        (AddTypedMessage MessageType.Typeless text ms rgba now (runUntyped adds [])) =
      [⟨text, (now + ms) % u32, rgba⟩] := by
  constructor
  · simpa [messagesFor] using (runUntyped_all_typeless adds [] (by simp)).2
  · rw [messagesFor_addTyped, if_pos rfl]

/-! ## Helper lemmas about DrawMessages and the u32 expiry arithmetic -/

theorem toInt32_small (x : Nat) (h : x < i32) : toInt32 x = (x : Int) := by
  have h2 : x < u32 := by simp only [u32, i32] at *; omega
  simp only [toInt32, Nat.mod_eq_of_lt h2, if_pos h]

theorem timeLeft_mod_left (a b : Nat) : timeLeft (a % u32) b = timeLeft a b := by
  unfold timeLeft u32Sub
  rw [Nat.mod_mod_of_dvd a (dvd_refl u32)]

theorem timeLeft_mod_right (a b : Nat) : timeLeft a (b % u32) = timeLeft a b := by
  unfold timeLeft u32Sub
  rw [Nat.mod_mod_of_dvd b (dvd_refl u32)]

theorem timeLeft_of_le (e now : Nat) (h1 : now ≤ e) (h2 : e - now < i32) :
    timeLeft (e % u32) now = ((e - now : Nat) : Int) := by
  rw [timeLeft_mod_left]
  simp only [timeLeft, u32Sub, toInt32, u32, i32] at *
  split <;> omega

theorem timeLeft_of_ge (e now : Nat) (h1 : e ≤ now) (h2 : now - e ≤ i32) :
    timeLeft (e % u32) now ≤ 0 := by
  rw [timeLeft_mod_left]
  simp only [timeLeft, u32Sub, toInt32, u32, i32] at *
  split <;> omega

theorem mem_drawMessagesGo (de : Bool) (now : Nat) (q : MessageQueue)
    (p : MessageType × Message) :
    p ∈ (drawMessagesGo de now q).1 ↔ p ∈ q ∧ 0 < timeLeft p.2.timestamp now := by
  induction q with
  | nil => simp [drawMessagesGo]
  | cons hd tl ih =>
    by_cases h : timeLeft hd.2.timestamp now ≤ 0
    · rw [drawMessagesGo]
      simp only [if_pos h]
      rw [ih]
      constructor
      · rintro ⟨h1, h2⟩
        exact ⟨List.mem_cons_of_mem hd h1, h2⟩
      · rintro ⟨h1, h2⟩
        rcases List.mem_cons.mp h1 with h1 | h1
        · subst h1; omega
        · exact ⟨h1, h2⟩
    · rw [drawMessagesGo]
      simp only [if_neg h, List.mem_cons]
      rw [ih]
      constructor
      · rintro (h1 | ⟨h1, h2⟩)
        · subst h1; exact ⟨Or.inl rfl, by omega⟩
        · exact ⟨Or.inr h1, h2⟩
      · rintro ⟨h1 | h1, h2⟩
        · exact Or.inl h1
        · exact Or.inr ⟨h1, h2⟩

theorem drawMessagesGo_fst_flag (de de' : Bool) (now : Nat) (q : MessageQueue) :
    (drawMessagesGo de now q).1 = (drawMessagesGo de' now q).1 := by
  induction q with
  | nil => rfl
  | cons hd tl ih =>
    rw [drawMessagesGo, drawMessagesGo]
    by_cases h : timeLeft hd.2.timestamp now ≤ 0
    · simpa only [if_pos h] using ih
    · simp only [if_neg h, ih]

theorem drawMessagesGo_snd_false (now : Nat) (q : MessageQueue) :
    (drawMessagesGo false now q).2 = [] := by
  induction q with
  | nil => rfl
  | cons hd tl ih =>
    rw [drawMessagesGo]
    by_cases h : timeLeft hd.2.timestamp now ≤ 0
    · simpa only [if_pos h] using ih
    · simpa only [if_neg h, Bool.false_eq_true, if_false] using ih

theorem drawMessagesGo_snd_true (now : Nat) (q : MessageQueue) :
    (drawMessagesGo true now q).2 =
      (drawMessagesGo true now q).1.map (fun r => (r.2, timeLeft r.2.timestamp now)) := by
  induction q with
  | nil => rfl
  | cons hd tl ih =>
    rw [drawMessagesGo]
    by_cases h : timeLeft hd.2.timestamp now ≤ 0
    · simpa only [if_pos h] using ih
    · simp only [if_neg h, if_true, List.map_cons, ih]

/-! ## Claim theorems: message lifetime and fade -/

/-- C3 (amended): a notification whose expiry was computed from add-time `t`
and duration `d < 2^31` is retained by `DrawMessages` for every `now` with
`t ≤ now < t + d` and removed for `t + d ≤ now ≤ t + d + 2^31`; removal is
independent of the draw flag, and rendering happens only when the flag is set.
The amendment bounds `d` below `2^31` and the overshoot `now - (t+d)` by
`2^31`: beyond them the `static_cast<int>(msg.timestamp - now)` sign test
wraps, the code retains an expired message, and the original unbounded claim
fails (see the counterexample). -/
theorem osd_draw_lifetime (de : Bool) (q : MessageQueue) (p : MessageType × Message)
    (t d now : Nat) (hts : p.2.timestamp = (t + d) % u32) (hd : d < i32) :
    ((t ≤ now ∧ now < t + d) → (p ∈ (DrawMessages de now q).1 ↔ p ∈ q)) ∧
    ((t + d ≤ now ∧ now ≤ t + d + i32) → p ∉ (DrawMessages de now q).1) ∧
    (DrawMessages de now q).1 = (DrawMessages false now q).1 ∧
    (DrawMessages false now q).2 = [] ∧
    (DrawMessages true now q).2 =
      (DrawMessages true now q).1.map (fun r => (r.2, timeLeft r.2.timestamp now)) := by
  refine ⟨?_, ?_, drawMessagesGo_fst_flag de false now q,
    drawMessagesGo_snd_false now q, drawMessagesGo_snd_true now q⟩
  · rintro ⟨h1, h2⟩
    have ht : timeLeft p.2.timestamp now = ((t + d - now : Nat) : Int) := by
      rw [hts]
      exact timeLeft_of_le (t + d) now (by omega) (by simp only [i32] at *; omega)
    rw [DrawMessages, mem_drawMessagesGo, ht]
    have hpos : (0 : Int) < ((t + d - now : Nat) : Int) := by
      have hn : 0 < t + d - now := by omega
      exact_mod_cast hn
    simp [hpos]
  · rintro ⟨h1, h2⟩
    have ht : timeLeft p.2.timestamp now ≤ 0 := by
      rw [hts]
      exact timeLeft_of_ge (t + d) now h1 (by omega)
    rw [DrawMessages, mem_drawMessagesGo]
    rintro ⟨-, hpos⟩
    omega

/-- Witness for C3 at a concrete message and clock values. -/
theorem osd_draw_lifetime_witness :
    ((⟨"m", (50 + 600) % u32, 7⟩ : Message).timestamp = (50 + 600) % u32 ∧ 600 < i32) ∧
    (((50 ≤ 500 ∧ 500 < 50 + 600) →
        (((2 : MessageType), (⟨"m", (50 + 600) % u32, 7⟩ : Message)) ∈
            (DrawMessages true 500 [(2, ⟨"m", (50 + 600) % u32, 7⟩)]).1 ↔
          ((2 : MessageType), (⟨"m", (50 + 600) % u32, 7⟩ : Message)) ∈
            [((2 : MessageType), (⟨"m", (50 + 600) % u32, 7⟩ : Message))])) ∧
      ((50 + 600 ≤ 500 ∧ 500 ≤ 50 + 600 + i32) →
        ((2 : MessageType), (⟨"m", (50 + 600) % u32, 7⟩ : Message)) ∉
          (DrawMessages true 500 [(2, ⟨"m", (50 + 600) % u32, 7⟩)]).1) ∧
      (DrawMessages true 500 [((2 : MessageType), (⟨"m", (50 + 600) % u32, 7⟩ : Message))]).1 =
        (DrawMessages false 500 [(2, ⟨"m", (50 + 600) % u32, 7⟩)]).1 ∧
      (DrawMessages false 500 [((2 : MessageType), (⟨"m", (50 + 600) % u32, 7⟩ : Message))]).2 = [] ∧
      (DrawMessages true 500 [((2 : MessageType), (⟨"m", (50 + 600) % u32, 7⟩ : Message))]).2 =
        (DrawMessages true 500 [(2, ⟨"m", (50 + 600) % u32, 7⟩)]).1.map
          (fun r => (r.2, timeLeft r.2.timestamp 500))) :=
  ⟨⟨rfl, by decide⟩, osd_draw_lifetime true [(2, ⟨"m", (50 + 600) % u32, 7⟩)]
    (2, ⟨"m", (50 + 600) % u32, 7⟩) 50 600 500 rfl (by decide)⟩

/-- C3 counterexample: the original claim says a notification is removed on
any call with `now ≥ t + d`, but for a message added at `t = 0` with
`d = 1000` a call at `now = 2^31 + 1001 ≥ t + d` retains it: the `u32`
difference `timestamp - now` wraps to a positive `int`. -/
theorem osd_draw_lifetime_cex :
    (0 + 1000 : Nat) ≤ 2147484649 ∧
    ((1 : MessageType), (⟨"x", (0 + 1000) % u32, 0⟩ : Message)) ∈
      (DrawMessages true 2147484649 [(1, ⟨"x", (0 + 1000) % u32, 0⟩)]).1 := by
  constructor
  · decide
  · decide

/-- C4 (amended): for a notification whose expiry was computed from add-time
`t` and duration `d` with `512 ≤ d < 2^31`, `DrawMessages` draws it at clock
reading `(t+d-512) mod 2^32` with opacity exactly `1/2`; at `(t+d-k) mod 2^32`
for any `1024 ≤ k ≤ d` (i.e. at `t+d-1024` or any earlier time back to the add
time) it is drawn with opacity exactly `1`; and at `(t+d+k) mod 2^32` for
`0 ≤ k ≤ 2^31` it is pruned, not drawn.  The drawn opacity is
`clamp01(time_left / 1024)` (`drawAlpha`).  The amendment bounds `d` below
`2^31` and the overshoot by `2^31`: outside them the signed reinterpretation
of the `u32` difference makes the original claim fail (see counterexample). -/
theorem osd_draw_fade (q : MessageQueue) (p : MessageType × Message) (t d : Nat)
    (hp : p ∈ q) (hts : p.2.timestamp = (t + d) % u32) (hd1 : 512 ≤ d) (hd2 : d < i32) :
    ((p.2, (512 : Int)) ∈ (DrawMessages true ((t + d - 512) % u32) q).2 ∧
      drawAlpha 512 = 1 / 2) ∧
    (∀ k : Nat, 1024 ≤ k → k ≤ d →
      (p.2, (k : Int)) ∈ (DrawMessages true ((t + d - k) % u32) q).2 ∧
        drawAlpha (k : Int) = 1) ∧
    (∀ k : Nat, k ≤ i32 →
      p ∉ (DrawMessages true ((t + d + k) % u32) q).1 ∧
        ∀ tl : Int, (p.2, tl) ∉ (DrawMessages true ((t + d + k) % u32) q).2) := by
  have hdraw : ∀ k : Nat, 0 < k → k ≤ d →
      (p.2, (k : Int)) ∈ (DrawMessages true ((t + d - k) % u32) q).2 := by
    intro k hk1 hk2
    have ht : timeLeft p.2.timestamp ((t + d - k) % u32) = ((k : Nat) : Int) := by
      rw [hts, timeLeft_mod_right]
      have h0 := timeLeft_of_le (t + d) (t + d - k) (by omega)
        (by simp only [i32] at *; omega)
      have he : t + d - (t + d - k) = k := by omega
      rw [h0, he]
    rw [DrawMessages, drawMessagesGo_snd_true]
    have hmem : p ∈ (drawMessagesGo true ((t + d - k) % u32) q).1 := by
      rw [mem_drawMessagesGo, ht]
      exact ⟨hp, by exact_mod_cast hk1⟩
    have := List.mem_map_of_mem (fun r => (r.2, timeLeft r.2.timestamp ((t + d - k) % u32))) hmem
    simpa [ht] using this
  refine ⟨⟨hdraw 512 (by omega) hd1, ?_⟩, fun k hk1 hk2 => ⟨hdraw k (by omega) hk2, ?_⟩,
    fun k hk => ?_⟩
  · norm_num [drawAlpha, fmin, fmax]
  · have hge : (1 : ℚ) ≤ ((k : Int) : ℚ) / 1024 := by
      rw [le_div_iff₀ (by norm_num : (0 : ℚ) < 1024)]
      have : (1024 : ℚ) ≤ ((k : Int) : ℚ) := by exact_mod_cast hk1
      linarith
    rw [drawAlpha, fmax, if_pos (by linarith : (0 : ℚ) < ((k : Int) : ℚ) / 1024),
      fmin, if_neg (not_lt.mpr hge)]
  · have ht : timeLeft p.2.timestamp ((t + d + k) % u32) ≤ 0 := by
      rw [hts, timeLeft_mod_right]
      exact timeLeft_of_ge (t + d) (t + d + k) (by omega) (by omega)
    have hnot : p ∉ (DrawMessages true ((t + d + k) % u32) q).1 := by
      rw [DrawMessages, mem_drawMessagesGo]
      rintro ⟨-, hpos⟩
      omega
    refine ⟨hnot, fun tl hmem => ?_⟩
    rw [DrawMessages, drawMessagesGo_snd_true] at hmem
    rcases List.mem_map.mp hmem with ⟨r, hr, he⟩
    have h2 : r.2 = p.2 := congrArg Prod.fst he
    have := (mem_drawMessagesGo true ((t + d + k) % u32) q r).mp hr
    rw [h2] at this
    omega

/-- Witness for C4 at a concrete message. -/
theorem osd_draw_fade_witness :
    (((3 : MessageType), (⟨"w", (100 + 2000) % u32, 9⟩ : Message)) ∈
        [((3 : MessageType), (⟨"w", (100 + 2000) % u32, 9⟩ : Message))] ∧
      (⟨"w", (100 + 2000) % u32, 9⟩ : Message).timestamp = (100 + 2000) % u32 ∧
      512 ≤ 2000 ∧ 2000 < i32) ∧
    ((((⟨"w", (100 + 2000) % u32, 9⟩ : Message), (512 : Int)) ∈
        (DrawMessages true ((100 + 2000 - 512) % u32)
          [(3, ⟨"w", (100 + 2000) % u32, 9⟩)]).2 ∧
      drawAlpha 512 = 1 / 2) ∧
    (∀ k : Nat, 1024 ≤ k → k ≤ 2000 →
      ((⟨"w", (100 + 2000) % u32, 9⟩ : Message), (k : Int)) ∈
        (DrawMessages true ((100 + 2000 - k) % u32)
          [(3, ⟨"w", (100 + 2000) % u32, 9⟩)]).2 ∧
        drawAlpha (k : Int) = 1) ∧
    (∀ k : Nat, k ≤ i32 →
      ((3 : MessageType), (⟨"w", (100 + 2000) % u32, 9⟩ : Message)) ∉
        (DrawMessages true ((100 + 2000 + k) % u32)
          [(3, ⟨"w", (100 + 2000) % u32, 9⟩)]).1 ∧
        ∀ tl : Int, ((⟨"w", (100 + 2000) % u32, 9⟩ : Message), tl) ∉
          (DrawMessages true ((100 + 2000 + k) % u32)
            [(3, ⟨"w", (100 + 2000) % u32, 9⟩)]).2)) :=
  ⟨⟨by decide, rfl, by decide, by decide⟩,
    osd_draw_fade [(3, ⟨"w", (100 + 2000) % u32, 9⟩)] (3, ⟨"w", (100 + 2000) % u32, 9⟩)
      100 2000 (by decide) rfl (by decide) (by decide)⟩

/-- C4 counterexample: the original claim says the opacity is `1.0` at
`now = t+d-1024` or any earlier time, but a message added at `t = 0` with
duration `d = 2^31` observed at `now = 0` (which is `t + d - 2^31`, earlier
than `t + d - 1024`) is pruned immediately instead of being drawn: its
`time_left` is the negative `int` reinterpretation of `2^31`. -/
theorem osd_draw_fade_cex :
    (0 : Nat) ≤ 0 + 2147483648 - 1024 ∧
    ((1 : MessageType), (⟨"x", (0 + 2147483648) % u32, 0⟩ : Message)) ∉
      (DrawMessages true 0 [(1, ⟨"x", (0 + 2147483648) % u32, 0⟩)]).1 ∧
    (DrawMessages true 0 [(1, ⟨"x", (0 + 2147483648) % u32, 0⟩)]).2 = [] := by
  refine ⟨by decide, by decide, by decide⟩

/-! ## Helper lemmas about the seek-bar drag state machine -/

theorem seekStep_press (s : SeekState) (i : SeekInput) (h0 : s.isHeld = false)
    (hh : i.hovered = true) (hd : i.down = true) :
    seekStep s i = (⟨true, i.newValue, s.target⟩, false) := by
  by_cases hv : s.v = i.newValue
  · simp [seekStep, h0, hh, hd, hv]
  · simp [seekStep, h0, hh, hd, hv]

theorem seekStep_held_down (s : SeekState) (i : SeekInput) (h0 : s.isHeld = true)
    (hd : i.down = true) :
    seekStep s i = (⟨true, i.newValue, s.target⟩, false) := by
  by_cases hv : s.v = i.newValue
  · simp [seekStep, h0, hd, hv]
  · simp [seekStep, h0, hd, hv]

theorem seekStep_release (s : SeekState) (i : SeekInput) (h0 : s.isHeld = true)
    (hd : i.down = false) :
    seekStep s i =
      (⟨false, if s.v = INT_MAX then i.currentPlaybackFrame else s.v, s.v⟩, true) := by
  simp [seekStep, h0, hd]

theorem seekRun_cons (s : SeekState) (i : SeekInput) (is : List SeekInput) :
    seekRun s (i :: is) =
      ((seekRun (seekStep s i).1 is).1,
        (if (seekStep s i).2 = true then [(seekStep s i).1.target] else []) ++
          (seekRun (seekStep s i).1 is).2) := rfl

theorem seekRun_of_held (rel : SeekInput) (hr : rel.down = false) (mids : List SeekInput) :
    ∀ s : SeekState, s.isHeld = true → (∀ i ∈ mids, i.down = true) →
      (seekRun s (mids ++ [rel])).2 = [lastNewValue s.v mids] := by
  induction mids with
  | nil =>
    intro s hs hm
    rw [List.nil_append, lastNewValue, seekRun_cons, seekStep_release s rel hs hr]
    simp [seekRun]
  | cons i is ih =>
    intro s hs hm
    have hid : i.down = true := hm i (List.mem_cons_self i is)
    rw [List.cons_append, seekRun_cons, seekStep_held_down s i hs hid, lastNewValue]
    have := ih ⟨true, i.newValue, s.target⟩ rfl
      (fun j hj => hm j (List.mem_cons_of_mem i hj))
    simpa using this

/-! ## Claim theorems: playback-control widgets -/

/-- C5 (amended): a full seek-bar drag — a press on a frame where the bar is
hovered and the button goes down, any number of frames with the button held,
then a release frame with the button up — publishes exactly one seek request,
and no request on the press frame or any held frame.  The request carries the
value the pointer position mapped to on the last frame on which the button was
down (`lastNewValue first.newValue mids`); this equals the release position's
value `v2` whenever the pointer does not move between the last held frame and
the release frame, but not in general, because on the release frame the write
`*v = new_value` is gated on `isDown` (line 283) and the published value is
the previously stored `*v` (line 295) — see the counterexample. -/
theorem seekbar_single_commit (s0 : SeekState) (first rel : SeekInput)
    (mids : List SeekInput) (h0 : s0.isHeld = false) (hh : first.hovered = true)
    (hfd : first.down = true) (hm : ∀ i ∈ mids, i.down = true) (hr : rel.down = false) :
    (seekRun s0 (first :: mids ++ [rel])).2 = [lastNewValue first.newValue mids] := by
  rw [List.cons_append, seekRun_cons, seekStep_press s0 first h0 hh hfd]
  have := seekRun_of_held rel hr mids ⟨true, first.newValue, s0.target⟩ rfl hm
  simpa using this

/-- Witness for C5: a concrete three-frame drag publishing exactly one
request with the last held frame's value. -/
theorem seekbar_single_commit_witness :
    ((⟨false, 5, 99⟩ : SeekState).isHeld = false ∧
      (⟨true, true, 10, 3⟩ : SeekInput).hovered = true ∧
      (⟨true, true, 10, 3⟩ : SeekInput).down = true ∧
      (∀ i ∈ [(⟨true, false, 20, 3⟩ : SeekInput)], i.down = true) ∧
      (⟨false, false, 25, 3⟩ : SeekInput).down = false) ∧
    (seekRun ⟨false, 5, 99⟩
        (⟨true, true, 10, 3⟩ :: [⟨true, false, 20, 3⟩] ++ [⟨false, false, 25, 3⟩])).2 =
      [lastNewValue (10 : Int) [⟨true, false, 20, 3⟩]] :=
  ⟨⟨rfl, rfl, rfl, by decide, rfl⟩,
    seekbar_single_commit ⟨false, 5, 99⟩ ⟨true, true, 10, 3⟩ ⟨false, false, 25, 3⟩
      [⟨true, false, 20, 3⟩] rfl rfl rfl (by decide) rfl⟩

/-- C5 counterexample: press at the position mapping to `10`, one held frame
at the position mapping to `20`, release at the position mapping to `v2 = 30`:
the code publishes one request carrying `20` (the last held frame's value),
not `30`, so the original claim that the request carries the release
position's value fails. -/
theorem seekbar_single_commit_cex :
    (seekRun ⟨false, 0, 0⟩
        [⟨true, true, 10, 0⟩, ⟨true, false, 20, 0⟩, ⟨false, false, 30, 0⟩]).2 = [20] ∧
    (seekRun ⟨false, 0, 0⟩
        [⟨true, true, 10, 0⟩, ⟨true, false, 20, 0⟩, ⟨false, false, 30, 0⟩]).2 ≠ [30] := by
  constructor
  · decide
  · decide

/-- C6: on any frame of a volume-bar interaction (the bar is hovered or
already held), a volume change is published exactly when the button is down
and the pointer-mapped value differs from the stored value; the new value is
written to the stored volume the same frame, and nothing is published (and the
value is unchanged) otherwise — in particular a release frame with an
unchanged value publishes nothing, so there is no release-to-commit step. -/
theorem volumebar_live_publish (s : VolState) (i : VolInput)
    (h : s.isHeld = true ∨ i.hovered = true) :
    (volStep s i).2 = (if i.down = true ∧ s.v ≠ i.newValue then some i.newValue else none) ∧
    (volStep s i).1.v = (if i.down = true ∧ s.v ≠ i.newValue then i.newValue else s.v) := by
  by_cases hd : i.down = true
  · by_cases hv : s.v = i.newValue
    · rcases h with h | h <;> simp [volStep, h, hd, hv]
    · rcases h with h | h <;> simp [volStep, h, hd, hv]
  · rcases h with h | h <;> simp [volStep, h, hd]

/-- Witness for C6: a hovered frame with the button down and a new value `80`
publishes `some 80` and stores `80`. -/
theorem volumebar_live_publish_witness :
    ((⟨false, 50⟩ : VolState).isHeld = true ∨ (⟨true, true, 80⟩ : VolInput).hovered = true) ∧
    ((volStep ⟨false, 50⟩ ⟨true, true, 80⟩).2 =
        (if (⟨true, true, 80⟩ : VolInput).down = true ∧ (50 : Int) ≠ 80 then some 80 else none) ∧
      (volStep ⟨false, 50⟩ ⟨true, true, 80⟩).1.v =
        (if (⟨true, true, 80⟩ : VolInput).down = true ∧ (50 : Int) ≠ 80 then 80 else 50)) :=
  ⟨Or.inr rfl, volumebar_live_publish ⟨false, 50⟩ ⟨true, true, 80⟩ (Or.inr rfl)⟩

/-- C7: one click of the mute toggle: at volume `0` with a nonzero remembered
pre-mute value it restores that value; at volume `0` with no remembered
nonzero value (`prev = 0`, its initial state) it sets the fallback `30`; at a
nonzero volume it remembers the volume in `prev` and mutes to `0`. -/
theorem mute_toggle_behavior (volume prev : Int) :
    (volume = 0 → prev ≠ 0 → muteToggleClick volume prev = (prev, prev)) ∧
    (volume = 0 → prev = 0 → muteToggleClick volume prev = (30, 0)) ∧
    (volume ≠ 0 → muteToggleClick volume prev = (0, volume)) := by
  refine ⟨fun h1 h2 => ?_, fun h1 h2 => ?_, fun h1 => ?_⟩
  · simp [muteToggleClick, h1, h2]
  · simp [muteToggleClick, h1, h2]
  · simp [muteToggleClick, h1]

/-- Witness for C7 at the concrete values named by the claim: restoring `45`,
falling back to `30`, and muting from `7`. -/
theorem mute_toggle_behavior_witness :
    muteToggleClick 0 45 = (45, 45) ∧ muteToggleClick 0 0 = (30, 0) ∧
      muteToggleClick 7 5 = (0, 7) :=
  ⟨(mute_toggle_behavior 0 45).1 rfl (by decide),
    (mute_toggle_behavior 0 0).2.1 rfl rfl,
    (mute_toggle_behavior 7 5).2.2 (by decide)⟩

/-! ## Claim theorems: control-bar idle fade -/

/-- C8 (amended): the control bar's opacity is `1` when the help panel is open
or any widget is hovered; otherwise, for pointer-idle times below one second
it is `1`, and for idle times of at least one second and below `2^31` ms it is
`max(0.0001, 1 - (idleMillis - 1000)/1000)`; in particular at `2500` ms idle
with no hover and help closed it is exactly `0.0001`.  The amendment bounds
the idle time below `2^31` ms: at and beyond that the `s32` cast of
`currTime - idle_tick` goes negative, the code treats the pointer as
non-idle and shows opacity `1`, and the original unbounded claim fails (see
the counterexample). -/
theorem idle_fade_alpha (showHelp hovered : Bool) (idleMillis : Nat)
    (hi : idleMillis < i32) :
    ((showHelp = true ∨ hovered = true) → controlBarAlpha showHelp hovered idleMillis = 1) ∧
    (showHelp = false → hovered = false → idleMillis < 1000 →
      controlBarAlpha showHelp hovered idleMillis = 1) ∧
    (showHelp = false → hovered = false → 1000 ≤ idleMillis →
      controlBarAlpha showHelp hovered idleMillis =
        fmax (1 / 10000) (1 - ((idleMillis : ℚ) - 1000) / 1000)) ∧
    controlBarAlpha false false 2500 = 1 / 10000 := by
  have hsmall : toInt32 idleMillis = (idleMillis : Int) := toInt32_small idleMillis hi
  refine ⟨?_, ?_, ?_, ?_⟩
  · rintro (h | h) <;> simp [controlBarAlpha, h]
  · intro h1 h2 h3
    have hlt : toInt32 idleMillis < 1000 := by rw [hsmall]; exact_mod_cast h3
    simp only [controlBarAlpha, h1, h2, if_pos hlt]
    norm_num [fmax]
  · intro h1 h2 h3
    have hge2 : ¬(idleMillis < 1000) := not_lt.mpr h3
    simp only [controlBarAlpha, h1, h2, hsmall]
    norm_num [fmax, hge2]
  · norm_num [controlBarAlpha, toInt32, u32, i32, fmax]

/-- Witness for C8 at the claim's concrete instance: `2500` ms idle, help
closed, nothing hovered. -/
theorem idle_fade_alpha_witness :
    (2500 : Nat) < i32 ∧
    (((false = true ∨ false = true) → controlBarAlpha false false 2500 = 1) ∧
      (false = false → false = false → (2500 : Nat) < 1000 →
        controlBarAlpha false false 2500 = 1) ∧
      (false = false → false = false → (1000 : Nat) ≤ 2500 →
        controlBarAlpha false false 2500 =
          fmax (1 / 10000) (1 - (((2500 : Nat) : ℚ) - 1000) / 1000)) ∧
      controlBarAlpha false false 2500 = 1 / 10000) :=
  ⟨by decide, idle_fade_alpha false false 2500 (by decide)⟩

/-- C8 counterexample: after `2^31` ms without pointer movement (help closed,
nothing hovered) the code computes opacity `1`, while the claim's formula
`max(0.0001, 1 - (idleMillis - 1000)/1000)` gives `0.0001`: the `s32` cast of
the idle difference is negative, so the code resets `diff` to `0`. -/
theorem idle_fade_alpha_cex :
    controlBarAlpha false false 2147483648 = 1 ∧
    fmax (1 / 10000) (1 - (((2147483648 : Nat) : ℚ) - 1000) / 1000) = 1 / 10000 := by
  constructor
  · norm_num [controlBarAlpha, toInt32, u32, i32, fmax]
  · norm_num [fmax]

/-! ## Claim theorems: timestamp label -/

theorem fmt02_of_nonneg (n : Int) (h : 0 ≤ n) : fmt02 n = pad2 n := by
  rw [fmt02, if_neg (not_lt.mpr h), pad2]

/-- C9 (amended): for every frame index `f` at or after the first frame whose
elapsed minute count is at most 99 (so that the label really is two digits per
field and stays inside the code's 6-byte buffer), the label equals `MM:SS`
with two zero-padded digits each, where the total elapsed seconds are
`(f - firstFrame) / 60` at 60 frames per second, `MM` is those seconds divided
by 60 and `SS` is those seconds modulo 60.  For `f` before the first frame the
C truncating `/` and sign-following `%` diverge from this reading and the
label is not of the claimed shape (see the counterexample). -/
theorem time_label_format (gameFirstFrame f : Int) (h1 : gameFirstFrame ≤ f)
    (_h2 : Int.tdiv (Int.tdiv (f - gameFirstFrame) 60) 60 ≤ 99) :
    GetTimeForFrame gameFirstFrame f = specTimeLabel gameFirstFrame f := by
  have hn : 0 ≤ f - gameFirstFrame := by omega
  have hs : Int.tdiv (f - gameFirstFrame) 60 = Int.ediv (f - gameFirstFrame) 60 :=
    Int.tdiv_eq_ediv hn (by norm_num)
  have hsn : 0 ≤ Int.ediv (f - gameFirstFrame) 60 := Int.ediv_nonneg hn (by norm_num)
  have hm : Int.tdiv (Int.ediv (f - gameFirstFrame) 60) 60 =
      Int.ediv (Int.ediv (f - gameFirstFrame) 60) 60 :=
    Int.tdiv_eq_ediv hsn (by norm_num)
  have hr : Int.tmod (Int.ediv (f - gameFirstFrame) 60) 60 =
      Int.emod (Int.ediv (f - gameFirstFrame) 60) 60 :=
    Int.tmod_eq_emod hsn (by norm_num)
  have hq1 : (0 : Int) ≤ Int.ediv (Int.ediv (f - gameFirstFrame) 60) 60 :=
    Int.ediv_nonneg hsn (by norm_num)
  have hq2 : (0 : Int) ≤ Int.emod (Int.ediv (f - gameFirstFrame) 60) 60 :=
    Int.emod_nonneg _ (by norm_num)
  rw [GetTimeForFrame, specTimeLabel, hs, hm, hr,
    fmt02_of_nonneg (Int.ediv (Int.ediv (f - gameFirstFrame) 60) 60) hq1,
    fmt02_of_nonneg (Int.emod (Int.ediv (f - gameFirstFrame) 60) 60) hq2]

/-- Witness for C9: one hour after the first frame the label is `01:00`. -/
theorem time_label_format_witness :
    ((0 : Int) ≤ 216000 ∧ Int.tdiv (Int.tdiv ((216000 : Int) - 0) 60) 60 ≤ 99) ∧
    GetTimeForFrame 0 216000 = specTimeLabel 0 216000 :=
  ⟨⟨by decide, by decide⟩, time_label_format 0 216000 (by decide) (by decide)⟩

/-- C9 counterexample: for a frame index 60 frames before the first frame the
code prints `"00:-1"` (C truncating division gives seconds `-1`, minutes `0`,
remainder `-1`), which is not `MM:SS` with two zero-padded digits each and
differs from the claimed reading (`"0-1:59"` under mathematical `/` and
`mod`), so the unrestricted claim over every frame index fails. -/
theorem time_label_format_cex :
    GetTimeForFrame 0 (-60) = "00:-1" ∧
    GetTimeForFrame 0 (-60) ≠ specTimeLabel 0 (-60) := by
  constructor
  · decide
  · decide

end OSD
